import Mathlib

/-!
Verification of the gitTracker traffic collector (src/collect_traffic.py).

The embedding models the persisted store, the timestamp-keyed merge
(merge_data), the daily snapshot update for stars/forks/referrers, the
one-year retention filter, and the load/fetch/write control flow of main.
Python strings are compared lexicographically by code point; since the
built-in String order does not reduce in the kernel, the comparison is
embedded directly over the character lists.
-/
namespace GitTracker

/-- Lexicographic strict comparison of character lists by code point,
matching Python's str < str. -/
def pyStrLtAux : List Char → List Char → Bool
  | _, [] => false
  | [], _ :: _ => true
  | a :: as, b :: bs =>
    if a.toNat < b.toNat then true
    else if b.toNat < a.toNat then false
    else pyStrLtAux as bs

/-- Lexicographic non-strict comparison of character lists by code point,
matching Python's str <= str. -/
def pyStrLeAux : List Char → List Char → Bool
  | [], _ => true
  | _ :: _, [] => false
  | a :: as, b :: bs =>
    if a.toNat < b.toNat then true
    else if b.toNat < a.toNat then false
    else pyStrLeAux as bs

/-- Python's s1 < s2 on strings. -/
def pyStrLt (a b : String) : Bool := pyStrLtAux a.data b.data

/-- Python's s1 <= s2 on strings (so pyStrLe c t models t >= c). -/
def pyStrLe (a b : String) : Bool := pyStrLeAux a.data b.data

/-- DailyMetric record of collect_traffic.py: one day of views or clones,
with fields timestamp, count, uniques. -/
structure Entry where
  timestamp : String
  count : Int
  uniques : Int
deriving DecidableEq

/-- Snapshot record for the stars and forks series: timestamp and count. -/
structure Snap where
  timestamp : String
  count : Int
deriving DecidableEq

/-- One referrer record as returned by the popular/referrers endpoint. -/
structure Referrer where
  referrer : String
  count : Int
  uniques : Int
deriving DecidableEq

/-- Opaque referrer payload stored verbatim in a referrer snapshot. -/
abbrev RefData := List Referrer

/-- Referrers snapshot record: timestamp and the opaque API payload. -/
structure RefSnap where
  timestamp : String
  data : RefData
deriving DecidableEq

/-- Insertion step of the stable key sort: the new element goes in front
of the first position whose key is not strictly below its own, so earlier
elements stay in front of later ones with an equal key. -/
def insertSorted (ts : α → String) (x : α) : List α → List α
  | [] => [x]
  | y :: ys =>
    if pyStrLt (ts y) (ts x) = true then y :: insertSorted ts x ys
    else x :: y :: ys

/-- Python's sorted with key = timestamp: a stable sort on the key,
realized as a structural insertion sort (stable sorts on the same key
agree as functions, so this is extensionally Python's sorted). -/
def sortByKey (ts : α → String) (l : List α) : List α :=
  l.foldr (insertSorted ts) []

/-- Python dict assignment data_map[k] = v: replace in place when the key
is present (dicts keep the original insertion position), append otherwise. -/
def dictInsert (m : List (String × Entry)) (k : String) (v : Entry) :
    List (String × Entry) :=
  if m.any (fun p => p.1 == k) then
    m.map (fun p => if p.1 == k then (k, v) else p)
  else m ++ [(k, v)]

/-- The START_DATE guard of merge_data, line 31: an incoming entry is
admitted unless a floor is set and the first 10 characters of its
timestamp are lexicographically below it. An empty-string floor models
an empty START_DATE, which Python treats as falsy; no string is below
the empty string, so the two agree. -/
def passesFloor (floor : Option String) (ts : String) : Bool :=
  match floor with
  | none => true
  | some f => !(pyStrLt (ts.take 10) f)

/-- The timestamp-keyed dict built by merge_data, lines 26-38: first the
existing entries, then the incoming ones (filtered by the floor and
projected to timestamp/count/uniques), later assignments overwriting. -/
def mergeMap (existing new_data : List Entry) (floor : Option String) :
    List (String × Entry) :=
  new_data.foldl
    (fun m e =>
      if passesFloor floor e.timestamp then
        dictInsert m e.timestamp
          { timestamp := e.timestamp, count := e.count, uniques := e.uniques }
      else m)
    (existing.foldl (fun m e => dictInsert m e.timestamp e) [])

/-- merge_data of collect_traffic.py lines 23-41, with the two series
passed directly (the Python version receives dicts plus the series key)
and the global START_DATE passed as the floor argument. -/
def merge_data (existing new_data : List Entry) (floor : Option String) :
    List Entry :=
  sortByKey Entry.timestamp ((mergeMap existing new_data floor).map Prod.snd)

/-- Left-biased choice on optional entries. -/
def oor : Option Entry → Option Entry → Option Entry
  | some a, _ => some a
  | none, b => b

/-- Lookup in an association list modelling dict access, first match. -/
def lookupA : List (String × Entry) → String → Option Entry
  | [], _ => none
  | p :: m, k => if p.1 = k then some p.2 else lookupA m k

/-- Last entry of the list carrying the given timestamp, if any. -/
def lastWithTS : List Entry → String → Option Entry
  | [], _ => none
  | e :: l, k => oor (lastWithTS l k) (if e.timestamp = k then some e else none)

/-- Value the merged dict associates to a timestamp: the last admitted
incoming entry with that timestamp if any, else the last existing one. -/
def mergeLookup (E B : List Entry) (floor : Option String) (k : String) :
    Option Entry :=
  oor (lastWithTS (B.filter (fun e => passesFloor floor e.timestamp)) k)
    (lastWithTS E k)

/-- Sorted ascending by timestamp key, non-strictly. -/
def SortedByTS (ts : α → String) (l : List α) : Prop :=
  List.Pairwise (fun a b => pyStrLe (ts a) (ts b) = true) l

/-- Sorted strictly ascending by timestamp key: ascending with unique
timestamps, the store invariant of the spec data model. -/
def StrictByTS (ts : α → String) (l : List α) : Prop :=
  List.Pairwise (fun a b => pyStrLt (ts a) (ts b) = true) l

/-- Every pair of the dict maps a timestamp key to an entry carrying that
same timestamp. -/
def KeysOk (m : List (String × Entry)) : Prop := ∀ p ∈ m, p.2.timestamp = p.1

/-- Daily replace of lines 79-82 and 85-88: drop any entry whose
timestamp equals today, append the fresh entry, and re-sort by
timestamp (Python list.sort, stable). -/
def dailyReplace (ts : α → String) (series : List α) (today : String) (entry : α) :
    List α :=
  sortByKey ts ((series.filter (fun x => ts x != today)) ++ [entry])

/-- Snapshot recording for the stars and forks series. -/
def recordSnapshot (series : List Snap) (today : String) (value : Int) : List Snap :=
  dailyReplace Snap.timestamp series today ⟨today, value⟩

/-- Snapshot recording for the referrers series. -/
def recordRefSnapshot (series : List RefSnap) (today : String) (d : RefData) :
    List RefSnap :=
  dailyReplace RefSnap.timestamp series today ⟨today, d⟩

/-- Retention filter of lines 92-94: keep entries with timestamp >= the
one-year-ago cutoff. -/
def prune (ts : α → String) (cutoff : String) (l : List α) : List α :=
  l.filter (fun x => pyStrLe cutoff (ts x))

/-- Repository metadata object; the two counter fields may be absent,
mirroring repo_data.get(api_key, 0) on line 81. -/
structure RepoData where
  stargazers_count : Option Int
  forks_count : Option Int
deriving DecidableEq

/-- The persisted store. views and clones are always materialized by the
loader; stars, forks and referrers may be absent from a legacy file and
are created on demand (lines 78 and 85). -/
structure Store where
  views : List Entry
  clones : List Entry
  stars : Option (List Snap)
  forks : Option (List Snap)
  referrers : Option (List RefSnap)
  updated_at : Option String
deriving DecidableEq

/-- Store produced by lines 52-54 for a missing or syntactically invalid
file, restricted to the typed model. -/
def defaultStore : Store :=
  { views := [], clones := [], stars := none, forks := none, referrers := none,
    updated_at := none }

/-- Steps 3-5 of main (lines 71-97) on a loaded store after all four
fetches succeeded: merge views and clones, record today's snapshots,
prune all five series, stamp updated_at. -/
def runUpdate (db : Store) (views_data clones_data : List Entry) (repo_data : RepoData)
    (ref_data : RefData) (today cutoff now : String) (floor : Option String) : Store :=
  let views := merge_data db.views views_data floor
  let clones := merge_data db.clones clones_data floor
  let stars := recordSnapshot (db.stars.getD []) today
    (repo_data.stargazers_count.getD 0)
  let forks := recordSnapshot (db.forks.getD []) today
    (repo_data.forks_count.getD 0)
  let referrers := recordRefSnapshot (db.referrers.getD []) today ref_data
  { views := prune Entry.timestamp cutoff views
    clones := prune Entry.timestamp cutoff clones
    stars := some (prune Snap.timestamp cutoff stars)
    forks := some (prune Snap.timestamp cutoff forks)
    referrers := some (prune RefSnap.timestamp cutoff referrers)
    updated_at := some now }

/-- Control flow of main (lines 43-107): load, four fetches in sequence
inside one try block, update, then write. Fetch outcomes are passed as
Except values; the first failure reaches the except handler, which exits
with status 1 before any write. The write opens the file for writing,
truncating it, then dumps; writeFail = some k models a dump that fails
after k characters, writeFail = none a successful write. Returns the
file contents after the run and the exit status. -/
def runMain (fileBefore : Option String) (load : Option String → Store)
    (views_fetch clones_fetch : Except Unit (List Entry))
    (repo_fetch : Except Unit RepoData) (ref_fetch : Except Unit RefData)
    (today cutoff now : String) (floor : Option String)
    (ser : Store → String) (writeFail : Option Nat) : Option String × Nat :=
  let db := load fileBefore
  match views_fetch, clones_fetch, repo_fetch, ref_fetch with
  | .ok v, .ok c, .ok repo, .ok rf =>
    let out := ser (runUpdate db v c repo rf today cutoff now floor)
    match writeFail with
    | none => (some out, 0)
    | some k => (some (out.take k), 1)
  | _, _, _, _ => (fileBefore, 1)

/-- JSON values, for the loader of lines 46-54, whose behavior depends on
whether the file contents parse as JSON at all, not on their shape. -/
inductive Json where
  | null
  | bool (b : Bool)
  | num (n : Int)
  | str (s : String)
  | arr (elems : List Json)
  | obj (fields : List (String × Json))

/-- The default document of lines 52 and 54. -/
def defaultDbJson : Json := .obj [("views", .arr []), ("clones", .arr [])]

/-- Store loader, lines 46-54: a missing file or a json.JSONDecodeError
yields the default document; any value that parses as JSON is returned
as-is, whatever its shape. The file argument is none for a missing file,
some (error ()) for contents that are not valid JSON, and some (ok j)
for contents parsing to j. -/
def loadDb : Option (Except Unit Json) → Json
  | none => defaultDbJson
  | some (.error _) => defaultDbJson
  | some (.ok j) => j

theorem pyStrLtAux_cons (a b : Char) (as bs : List Char) :
    pyStrLtAux (a :: as) (b :: bs) =
      if a.toNat < b.toNat then true
      else if b.toNat < a.toNat then false
      else pyStrLtAux as bs := rfl

theorem pyStrLeAux_cons (a b : Char) (as bs : List Char) :
    pyStrLeAux (a :: as) (b :: bs) =
      if a.toNat < b.toNat then true
      else if b.toNat < a.toNat then false
      else pyStrLeAux as bs := rfl

theorem pyStrLeAux_refl (l : List Char) : pyStrLeAux l l = true := by
  induction l with
  | nil => rfl
  | cons a as ih =>
    rw [pyStrLeAux_cons, if_neg (Nat.lt_irrefl _), if_neg (Nat.lt_irrefl _)]
    exact ih

theorem pyStrLeAux_total (l1 l2 : List Char) :
    pyStrLeAux l1 l2 = true ∨ pyStrLeAux l2 l1 = true := by
  induction l1 generalizing l2 with
  | nil => left; rfl
  | cons a as ih =>
    cases l2 with
    | nil => right; rfl
    | cons b bs =>
      rcases Nat.lt_trichotomy a.toNat b.toNat with h | h | h
      · left
        rw [pyStrLeAux_cons, if_pos h]
      · rw [pyStrLeAux_cons, pyStrLeAux_cons, if_neg (by omega : ¬ a.toNat < b.toNat),
          if_neg (by omega : ¬ b.toNat < a.toNat), if_neg (by omega : ¬ b.toNat < a.toNat),
          if_neg (by omega : ¬ a.toNat < b.toNat)]
        exact ih bs
      · right
        rw [pyStrLeAux_cons, if_pos h]

theorem pyStrLeAux_trans {l1 l2 l3 : List Char}
    (h12 : pyStrLeAux l1 l2 = true) (h23 : pyStrLeAux l2 l3 = true) :
    pyStrLeAux l1 l3 = true := by
  induction l1 generalizing l2 l3 with
  | nil => rfl
  | cons a as ih =>
    cases l2 with
    | nil => exact absurd h12 (by simp [pyStrLeAux])
    | cons b bs =>
      cases l3 with
      | nil => exact absurd h23 (by simp [pyStrLeAux])
      | cons c cs =>
        rw [pyStrLeAux_cons] at h12 h23 ⊢
        rcases Nat.lt_trichotomy a.toNat b.toNat with hab | hab | hab
        · rcases Nat.lt_trichotomy b.toNat c.toNat with hbc | hbc | hbc
          · rw [if_pos (by omega : a.toNat < c.toNat)]
          · rw [if_pos (by omega : a.toNat < c.toNat)]
          · rw [if_neg (by omega : ¬ b.toNat < c.toNat),
              if_pos (by omega : c.toNat < b.toNat)] at h23
            exact absurd h23 (by simp)
        · rcases Nat.lt_trichotomy b.toNat c.toNat with hbc | hbc | hbc
          · rw [if_pos (by omega : a.toNat < c.toNat)]
          · rw [if_neg (by omega : ¬ a.toNat < c.toNat),
              if_neg (by omega : ¬ c.toNat < a.toNat)]
            rw [if_neg (by omega : ¬ a.toNat < b.toNat),
              if_neg (by omega : ¬ b.toNat < a.toNat)] at h12
            rw [if_neg (by omega : ¬ b.toNat < c.toNat),
              if_neg (by omega : ¬ c.toNat < b.toNat)] at h23
            exact ih h12 h23
          · rw [if_neg (by omega : ¬ b.toNat < c.toNat),
              if_pos (by omega : c.toNat < b.toNat)] at h23
            exact absurd h23 (by simp)
        · rw [if_neg (by omega : ¬ a.toNat < b.toNat),
            if_pos (by omega : b.toNat < a.toNat)] at h12
          exact absurd h12 (by simp)

theorem char_toNat_inj {a b : Char} (h : a.toNat = b.toNat) : a = b :=
  Char.ext (UInt32.ext h)

theorem pyStrLeAux_antisymm {l1 l2 : List Char}
    (h12 : pyStrLeAux l1 l2 = true) (h21 : pyStrLeAux l2 l1 = true) :
    l1 = l2 := by
  induction l1 generalizing l2 with
  | nil =>
    cases l2 with
    | nil => rfl
    | cons b bs => exact absurd h21 (by simp [pyStrLeAux])
  | cons a as ih =>
    cases l2 with
    | nil => exact absurd h12 (by simp [pyStrLeAux])
    | cons b bs =>
      rw [pyStrLeAux_cons] at h12 h21
      rcases Nat.lt_trichotomy a.toNat b.toNat with hab | hab | hab
      · rw [if_neg (by omega : ¬ b.toNat < a.toNat),
          if_pos (by omega : a.toNat < b.toNat)] at h21
        exact absurd h21 (by simp)
      · rw [if_neg (by omega : ¬ a.toNat < b.toNat),
          if_neg (by omega : ¬ b.toNat < a.toNat)] at h12
        rw [if_neg (by omega : ¬ b.toNat < a.toNat),
          if_neg (by omega : ¬ a.toNat < b.toNat)] at h21
        rw [char_toNat_inj hab, ih h12 h21]
      · rw [if_neg (by omega : ¬ a.toNat < b.toNat),
          if_pos (by omega : b.toNat < a.toNat)] at h12
        exact absurd h12 (by simp)

theorem pyStrLtAux_iff_not_le (l1 l2 : List Char) :
    pyStrLtAux l1 l2 = true ↔ ¬ pyStrLeAux l2 l1 = true := by
  induction l1 generalizing l2 with
  | nil =>
    cases l2 with
    | nil => simp [pyStrLtAux, pyStrLeAux]
    | cons b bs => simp [pyStrLtAux, pyStrLeAux]
  | cons a as ih =>
    cases l2 with
    | nil => simp [pyStrLtAux, pyStrLeAux]
    | cons b bs =>
      rw [pyStrLtAux_cons, pyStrLeAux_cons]
      rcases Nat.lt_trichotomy a.toNat b.toNat with hab | hab | hab
      · rw [if_pos hab, if_neg (by omega : ¬ b.toNat < a.toNat),
          if_pos (by omega : a.toNat < b.toNat)]
        simp
      · rw [if_neg (by omega : ¬ a.toNat < b.toNat),
          if_neg (by omega : ¬ b.toNat < a.toNat),
          if_neg (by omega : ¬ b.toNat < a.toNat),
          if_neg (by omega : ¬ a.toNat < b.toNat)]
        exact ih bs
      · rw [if_neg (by omega : ¬ a.toNat < b.toNat),
          if_pos (by omega : b.toNat < a.toNat), if_pos (by omega : b.toNat < a.toNat)]
        simp

theorem pyStrLe_refl (s : String) : pyStrLe s s = true := pyStrLeAux_refl s.data

theorem pyStrLe_total (s t : String) :
    pyStrLe s t = true ∨ pyStrLe t s = true := pyStrLeAux_total s.data t.data

theorem pyStrLe_trans {s t u : String}
    (h1 : pyStrLe s t = true) (h2 : pyStrLe t u = true) : pyStrLe s u = true :=
  pyStrLeAux_trans h1 h2

theorem pyStrLe_antisymm {s t : String}
    (h1 : pyStrLe s t = true) (h2 : pyStrLe t s = true) : s = t := by
  cases s with
  | mk d1 =>
    cases t with
    | mk d2 =>
      have : d1 = d2 := pyStrLeAux_antisymm h1 h2
      rw [this]

theorem pyStrLt_iff_not_le (s t : String) :
    pyStrLt s t = true ↔ ¬ pyStrLe t s = true := pyStrLtAux_iff_not_le s.data t.data

theorem pyStrLt_of_le_of_ne {s t : String}
    (h : pyStrLe s t = true) (hne : s ≠ t) : pyStrLt s t = true := by
  rw [pyStrLt_iff_not_le]
  intro hts
  exact hne (pyStrLe_antisymm h hts)

theorem pyStrLe_of_lt {s t : String} (h : pyStrLt s t = true) : pyStrLe s t = true := by
  rcases pyStrLe_total s t with h' | h'
  · exact h'
  · rw [pyStrLt_iff_not_le] at h
    exact absurd h' h

theorem pyStrLt_irrefl (s : String) : pyStrLt s s = false := by
  cases hv : pyStrLt s s
  · rfl
  · rw [pyStrLt_iff_not_le] at hv
    exact absurd (pyStrLe_refl s) hv

theorem pyStrLt_asymm {s t : String} (h : pyStrLt s t = true) :
    pyStrLt t s = false := by
  cases hv : pyStrLt t s
  · rfl
  · rw [pyStrLt_iff_not_le] at hv
    exact absurd (pyStrLe_of_lt h) hv

theorem pyStrLt_ne {s t : String} (h : pyStrLt s t = true) : s ≠ t := by
  intro he
  rw [he, pyStrLt_irrefl] at h
  exact Bool.false_ne_true h

theorem pyStrLt_trans {s t u : String}
    (h1 : pyStrLt s t = true) (h2 : pyStrLt t u = true) : pyStrLt s u = true := by
  have hsu : pyStrLe s u = true := pyStrLe_trans (pyStrLe_of_lt h1) (pyStrLe_of_lt h2)
  apply pyStrLt_of_le_of_ne hsu
  intro he
  rw [he] at h1
  have h3 := pyStrLt_asymm h2
  rw [h1] at h3
  exact Bool.false_ne_true h3.symm

theorem insertSorted_perm (ts : α → String) (x : α) (l : List α) :
    (insertSorted ts x l).Perm (x :: l) := by
  induction l with
  | nil => exact List.Perm.refl _
  | cons y ys ih =>
    unfold insertSorted
    by_cases h : pyStrLt (ts y) (ts x) = true
    · rw [if_pos h]
      exact (ih.cons y).trans (List.Perm.swap x y ys)
    · rw [if_neg h]

theorem sortByKey_perm (ts : α → String) (l : List α) :
    (sortByKey ts l).Perm l := by
  induction l with
  | nil => exact List.Perm.refl _
  | cons a l ih =>
    unfold sortByKey at ih ⊢
    rw [List.foldr_cons]
    exact (insertSorted_perm ts a _).trans (ih.cons a)

theorem le_of_not_lt_ts {s t : String} (h : ¬ pyStrLt s t = true) :
    pyStrLe t s = true := by
  cases hv : pyStrLe t s
  · rw [pyStrLt_iff_not_le] at h
    exact absurd (fun hh => by rw [hv] at hh; exact Bool.noConfusion hh) h
  · rfl

theorem insertSorted_sorted (ts : α → String) (x : α) {l : List α}
    (h : SortedByTS ts l) : SortedByTS ts (insertSorted ts x l) := by
  induction l with
  | nil => exact List.pairwise_singleton _ _
  | cons y ys ih =>
    rcases List.pairwise_cons.mp h with ⟨hy, hys⟩
    unfold insertSorted
    by_cases hlt : pyStrLt (ts y) (ts x) = true
    · rw [if_pos hlt]
      apply List.pairwise_cons.mpr
      refine ⟨?_, ih hys⟩
      intro z hz
      rcases List.mem_cons.mp ((insertSorted_perm ts x ys).mem_iff.mp hz) with rfl | hz'
      · exact pyStrLe_of_lt hlt
      · exact hy z hz'
    · rw [if_neg hlt]
      apply List.pairwise_cons.mpr
      refine ⟨?_, h⟩
      intro z hz
      rcases List.mem_cons.mp hz with rfl | hz'
      · exact le_of_not_lt_ts hlt
      · exact pyStrLe_trans (le_of_not_lt_ts hlt) (hy z hz')

theorem sortByKey_sorted (ts : α → String) (l : List α) :
    SortedByTS ts (sortByKey ts l) := by
  induction l with
  | nil => exact List.Pairwise.nil
  | cons a l ih =>
    unfold sortByKey at ih ⊢
    rw [List.foldr_cons]
    exact insertSorted_sorted ts a ih

theorem strictByTS_nodup_ts {ts : α → String} {l : List α}
    (h : StrictByTS ts l) : (l.map ts).Nodup :=
  List.pairwise_map.mpr (h.imp (fun hab => pyStrLt_ne hab))

theorem strict_of_sorted_nodup {ts : α → String} {l : List α}
    (hs : SortedByTS ts l) (hn : (l.map ts).Nodup) : StrictByTS ts l := by
  have hne : List.Pairwise (fun a b : α => ts a ≠ ts b) l := List.pairwise_map.mp hn
  exact (hs.and hne).imp (fun h => pyStrLt_of_le_of_ne h.1 h.2)

/-- Two lists that are strictly sorted by timestamp key and have the same
members are equal. -/
theorem eq_of_strict_of_mem_iff {ts : α → String} {l1 l2 : List α}
    (h1 : StrictByTS ts l1) (h2 : StrictByTS ts l2)
    (hm : ∀ x, x ∈ l1 ↔ x ∈ l2) : l1 = l2 := by
  induction l1 generalizing l2 with
  | nil =>
    cases l2 with
    | nil => rfl
    | cons b t2 => exact absurd ((hm b).mpr (List.mem_cons_self b t2)) (List.not_mem_nil b)
  | cons a t1 ih =>
    cases l2 with
    | nil => exact absurd ((hm a).mp (List.mem_cons_self a t1)) (List.not_mem_nil a)
    | cons b t2 =>
      rcases List.pairwise_cons.mp h1 with ⟨ha, ht1⟩
      rcases List.pairwise_cons.mp h2 with ⟨hb, ht2⟩
      have hab : a = b := by
        by_contra hne
        rcases List.mem_cons.mp ((hm a).mp (List.mem_cons_self a t1)) with h | h
        · exact hne h
        · rcases List.mem_cons.mp ((hm b).mpr (List.mem_cons_self b t2)) with h' | h'
          · exact hne h'.symm
          · have l1lt := ha b h'
            have l2lt := hb a h
            have hasym := pyStrLt_asymm l1lt
            rw [l2lt] at hasym
            exact Bool.noConfusion hasym
      subst hab
      have hmem : ∀ x, x ∈ t1 ↔ x ∈ t2 := by
        intro x
        constructor
        · intro hx
          rcases List.mem_cons.mp ((hm x).mp (List.mem_cons_of_mem a hx)) with rfl | h
          · have hxx := ha x hx
            rw [pyStrLt_irrefl] at hxx
            exact Bool.noConfusion hxx
          · exact h
        · intro hx
          rcases List.mem_cons.mp ((hm x).mpr (List.mem_cons_of_mem a hx)) with rfl | h
          · have hxx := hb x hx
            rw [pyStrLt_irrefl] at hxx
            exact Bool.noConfusion hxx
          · exact h
      rw [ih ht1 ht2 hmem]

theorem oor_eq_or (a b : Option Entry) : oor a b = a.or b := by
  cases a <;> rfl

theorem oor_none_right (a : Option Entry) : oor a none = a := by
  cases a <;> rfl

theorem oor_assoc (a b c : Option Entry) : oor (oor a b) c = oor a (oor b c) := by
  cases a <;> cases b <;> rfl

theorem lookupA_map_replace_self (m : List (String × Entry)) (k : String) (v : Entry)
    (h : m.any (fun p => p.1 == k) = true) :
    lookupA (m.map (fun p => if p.1 == k then (k, v) else p)) k = some v := by
  induction m with
  | nil => exact absurd h (by simp)
  | cons q m ih =>
    rw [List.map_cons]
    by_cases hq : (q.1 == k) = true
    · rw [if_pos hq]
      unfold lookupA
      rw [if_pos rfl]
    · rw [if_neg hq]
      unfold lookupA
      rw [if_neg (fun he => hq (beq_iff_eq.mpr he))]
      apply ih
      rw [List.any_cons] at h
      cases hv : (q.1 == k)
      · rw [hv] at h
        simpa using h
      · exact absurd hv hq

theorem lookupA_map_replace_other (m : List (String × Entry)) (k k' : String) (v : Entry)
    (hne : k' ≠ k) :
    lookupA (m.map (fun p => if p.1 == k then (k, v) else p)) k' = lookupA m k' := by
  induction m with
  | nil => rfl
  | cons q m ih =>
    rw [List.map_cons]
    by_cases hq : (q.1 == k) = true
    · rw [if_pos hq]
      have hq' : q.1 = k := beq_iff_eq.mp hq
      unfold lookupA
      rw [if_neg (fun he => hne (id he : k = k').symm),
        if_neg (fun he => hne ((hq'.symm.trans he).symm)), ih]
    · rw [if_neg hq]
      unfold lookupA
      by_cases hq' : q.1 = k'
      · rw [if_pos hq', if_pos hq']
      · rw [if_neg hq', if_neg hq', ih]

theorem lookupA_append_single (m : List (String × Entry)) (k k' : String) (v : Entry) :
    lookupA (m ++ [(k, v)]) k' =
      oor (lookupA m k') (if k = k' then some v else none) := by
  induction m with
  | nil =>
    show lookupA [(k, v)] k' = oor none (if k = k' then some v else none)
    unfold lookupA
    by_cases hk : k = k'
    · rw [if_pos hk, if_pos hk]
      rfl
    · rw [if_neg hk, if_neg hk]
      rfl
  | cons q m ih =>
    show lookupA (q :: (m ++ [(k, v)])) k' = _
    unfold lookupA
    by_cases hq : q.1 = k'
    · rw [if_pos hq, if_pos hq]
      rfl
    · rw [if_neg hq, if_neg hq, ih]

theorem lookupA_dictInsert (m : List (String × Entry)) (k k' : String) (v : Entry) :
    lookupA (dictInsert m k v) k' = if k' = k then some v else lookupA m k' := by
  unfold dictInsert
  by_cases hany : m.any (fun p => p.1 == k) = true
  · rw [if_pos hany]
    by_cases hk : k' = k
    · subst hk
      rw [if_pos rfl, lookupA_map_replace_self m k' v hany]
    · rw [if_neg hk, lookupA_map_replace_other m k k' v hk]
  · rw [if_neg hany, lookupA_append_single]
    by_cases hk : k' = k
    · subst hk
      rw [if_pos rfl, if_pos rfl]
      have hnone : ∀ m' : List (String × Entry),
          ¬ m'.any (fun p => p.1 == k') = true → lookupA m' k' = none := by
        intro m'
        induction m' with
        | nil => intro _; rfl
        | cons q m' ih =>
          intro hm
          rw [List.any_cons] at hm
          unfold lookupA
          rw [if_neg (fun he => hm (by rw [beq_iff_eq.mpr he]; simp))]
          exact ih (fun hh => hm (by rw [hh]; simp))
      rw [hnone m hany]
      rfl
    · rw [if_neg hk, if_neg (fun he => hk he.symm), oor_none_right]

theorem dictInsert_keys (m : List (String × Entry)) (k : String) (v : Entry) :
    (dictInsert m k v).map Prod.fst =
      if m.any (fun p => p.1 == k) = true then m.map Prod.fst
      else m.map Prod.fst ++ [k] := by
  unfold dictInsert
  by_cases hany : m.any (fun p => p.1 == k) = true
  · rw [if_pos hany, if_pos hany, List.map_map]
    apply List.map_congr_left
    intro p _
    by_cases hp : (p.1 == k) = true
    · show Prod.fst (if p.1 == k then (k, v) else p) = p.1
      rw [if_pos hp]
      exact (beq_iff_eq.mp hp).symm
    · show Prod.fst (if p.1 == k then (k, v) else p) = p.1
      rw [if_neg hp]
  · rw [if_neg hany, if_neg hany, List.map_append]
    rfl

theorem dictInsert_keys_nodup {m : List (String × Entry)} {k : String} {v : Entry}
    (h : (m.map Prod.fst).Nodup) : ((dictInsert m k v).map Prod.fst).Nodup := by
  rw [dictInsert_keys]
  by_cases hany : m.any (fun p => p.1 == k) = true
  · rw [if_pos hany]
    exact h
  · rw [if_neg hany]
    rw [List.nodup_append]
    refine ⟨h, List.nodup_singleton k, ?_⟩
    intro x hx hx'
    rcases List.mem_map.mp hx with ⟨p, hp, rfl⟩
    rcases List.mem_cons.mp hx' with he | he
    · have := List.any_eq_false.mp (Bool.eq_false_iff.mpr hany) p hp
      exact this (beq_iff_eq.mpr he)
    · exact absurd he (List.not_mem_nil _)

theorem dictInsert_keysOk {m : List (String × Entry)} {k : String} {v : Entry}
    (h : KeysOk m) (hv : v.timestamp = k) : KeysOk (dictInsert m k v) := by
  unfold dictInsert
  by_cases hany : m.any (fun p => p.1 == k) = true
  · rw [if_pos hany]
    intro p hp
    rcases List.mem_map.mp hp with ⟨q, hq, rfl⟩
    by_cases hq1 : (q.1 == k) = true
    · rw [if_pos hq1]
      exact hv
    · rw [if_neg hq1]
      exact h q hq
  · rw [if_neg hany]
    intro p hp
    rcases List.mem_append.mp hp with hp' | hp'
    · exact h p hp'
    · rcases List.mem_cons.mp hp' with rfl | hp''
      · exact hv
      · exact absurd hp'' (List.not_mem_nil p)

theorem lookupA_foldIf (c : Entry → Bool) (l : List Entry)
    (m0 : List (String × Entry)) (k : String) :
    lookupA (l.foldl (fun m e => if c e then dictInsert m e.timestamp e else m) m0) k
      = oor (lastWithTS (l.filter c) k) (lookupA m0 k) := by
  induction l generalizing m0 with
  | nil =>
    rw [List.foldl_nil, List.filter_nil]
    rfl
  | cons e l ih =>
    rw [List.foldl_cons]
    by_cases hc : c e = true
    · rw [if_pos hc, List.filter_cons_of_pos hc]
      rw [ih]
      show _ = oor (oor (lastWithTS (l.filter c) k)
        (if e.timestamp = k then some e else none)) (lookupA m0 k)
      rw [lookupA_dictInsert, oor_assoc]
      congr 1
      by_cases hk : e.timestamp = k
      · rw [if_pos hk, if_pos hk.symm]
        rfl
      · rw [if_neg hk, if_neg (fun hh => hk hh.symm)]
        rfl
    · rw [if_neg hc, List.filter_cons_of_neg hc, ih]

theorem lookupA_foldInsert (l : List Entry) (m0 : List (String × Entry)) (k : String) :
    lookupA (l.foldl (fun m e => dictInsert m e.timestamp e) m0) k
      = oor (lastWithTS l k) (lookupA m0 k) := by
  have h := lookupA_foldIf (fun _ => true) l m0 k
  rw [List.filter_true] at h
  exact h

theorem lookupA_mergeMap (E B : List Entry) (f : Option String) (k : String) :
    lookupA (mergeMap E B f) k = mergeLookup E B f k := by
  show lookupA (B.foldl
      (fun m e => if passesFloor f e.timestamp then dictInsert m e.timestamp e else m)
      (E.foldl (fun m e => dictInsert m e.timestamp e) [])) k = _
  rw [lookupA_foldIf, lookupA_foldInsert]
  show oor _ (oor (lastWithTS E k) none) = _
  rw [oor_none_right]
  rfl

theorem mergeMap_inv (E B : List Entry) (f : Option String) :
    ((mergeMap E B f).map Prod.fst).Nodup ∧ KeysOk (mergeMap E B f) := by
  have step1 : ∀ (l : List Entry) (m0 : List (String × Entry)),
      (m0.map Prod.fst).Nodup → KeysOk m0 →
      (((l.foldl (fun m e => dictInsert m e.timestamp e) m0).map Prod.fst).Nodup ∧
        KeysOk (l.foldl (fun m e => dictInsert m e.timestamp e) m0)) := by
    intro l
    induction l with
    | nil => intro m0 h1 h2; exact ⟨h1, h2⟩
    | cons e l ih =>
      intro m0 h1 h2
      rw [List.foldl_cons]
      exact ih _ (dictInsert_keys_nodup h1) (dictInsert_keysOk h2 rfl)
  have step2 : ∀ (l : List Entry) (m0 : List (String × Entry)),
      (m0.map Prod.fst).Nodup → KeysOk m0 →
      (((l.foldl (fun m e => if passesFloor f e.timestamp then
          dictInsert m e.timestamp e else m) m0).map Prod.fst).Nodup ∧
        KeysOk (l.foldl (fun m e => if passesFloor f e.timestamp then
          dictInsert m e.timestamp e else m) m0)) := by
    intro l
    induction l with
    | nil => intro m0 h1 h2; exact ⟨h1, h2⟩
    | cons e l ih =>
      intro m0 h1 h2
      rw [List.foldl_cons]
      by_cases hc : passesFloor f e.timestamp = true
      · rw [if_pos hc]
        exact ih _ (dictInsert_keys_nodup h1) (dictInsert_keysOk h2 rfl)
      · rw [if_neg hc]
        exact ih _ h1 h2
  have h0 : KeysOk ([] : List (String × Entry)) := fun p hp => absurd hp (List.not_mem_nil p)
  have h1 := step1 E [] (by simp) h0
  exact step2 B _ h1.1 h1.2

theorem lookupA_eq_some_of_mem {m : List (String × Entry)} (hn : (m.map Prod.fst).Nodup)
    {p : String × Entry} (hp : p ∈ m) : lookupA m p.1 = some p.2 := by
  induction m with
  | nil => exact absurd hp (List.not_mem_nil p)
  | cons q m ih =>
    rcases List.mem_cons.mp hp with rfl | hp'
    · unfold lookupA
      rw [if_pos rfl]
    · unfold lookupA
      rw [List.map_cons] at hn
      rcases List.nodup_cons.mp hn with ⟨hq, hn'⟩
      have hne : ¬ q.1 = p.1 := by
        intro he
        apply hq
        rw [he]
        exact List.mem_map.mpr ⟨p, hp', rfl⟩
      rw [if_neg hne]
      exact ih hn' hp'

theorem lookupA_mem {m : List (String × Entry)} {k : String} {r : Entry}
    (h : lookupA m k = some r) : ∃ p ∈ m, p.2 = r ∧ p.1 = k := by
  induction m with
  | nil => exact Option.noConfusion h
  | cons q m ih =>
    unfold lookupA at h
    by_cases hq : q.1 = k
    · rw [if_pos hq] at h
      exact ⟨q, List.mem_cons_self q m, Option.some.inj h, hq⟩
    · rw [if_neg hq] at h
      rcases ih h with ⟨p, hp, h2, h3⟩
      exact ⟨p, List.mem_cons_of_mem q hp, h2, h3⟩

theorem lastWithTS_mem {l : List Entry} {k : String} {r : Entry}
    (h : lastWithTS l k = some r) : r ∈ l ∧ r.timestamp = k := by
  induction l with
  | nil => exact Option.noConfusion h
  | cons e l ih =>
    unfold lastWithTS at h
    cases hv : lastWithTS l k with
    | some x =>
      rw [hv] at h
      have hx : x = r := Option.some.inj h
      subst hx
      rcases ih hv with ⟨h1, h2⟩
      exact ⟨List.mem_cons_of_mem e h1, h2⟩
    | none =>
      rw [hv] at h
      by_cases he : e.timestamp = k
      · rw [if_pos he] at h
        have hx : e = r := Option.some.inj h
        subst hx
        exact ⟨List.mem_cons_self e l, he⟩
      · rw [if_neg he] at h
        exact Option.noConfusion (show (none : Option Entry) = some r from h)

theorem lastWithTS_eq_some_of_mem {l : List Entry} (hn : (l.map Entry.timestamp).Nodup)
    {r : Entry} (hr : r ∈ l) : lastWithTS l r.timestamp = some r := by
  induction l with
  | nil => exact absurd hr (List.not_mem_nil r)
  | cons e l ih =>
    rw [List.map_cons] at hn
    rcases List.nodup_cons.mp hn with ⟨he, hn'⟩
    rcases List.mem_cons.mp hr with rfl | hr'
    · have hnone : lastWithTS l r.timestamp = none := by
        cases hv : lastWithTS l r.timestamp with
        | none => rfl
        | some x =>
          rcases lastWithTS_mem hv with ⟨hx, hxts⟩
          exact absurd (hxts ▸ List.mem_map.mpr ⟨x, hx, rfl⟩) he
      show oor (lastWithTS l r.timestamp)
        (if r.timestamp = r.timestamp then some r else none) = some r
      rw [hnone, if_pos rfl]
      rfl
    · show oor (lastWithTS l r.timestamp)
        (if e.timestamp = r.timestamp then some e else none) = some r
      rw [ih hn' hr']
      rfl

theorem lastWithTS_eq_none {l : List Entry} {k : String}
    (h : ∀ e ∈ l, e.timestamp ≠ k) : lastWithTS l k = none := by
  induction l with
  | nil => rfl
  | cons e l ih =>
    show oor (lastWithTS l k) (if e.timestamp = k then some e else none) = none
    rw [ih (fun x hx => h x (List.mem_cons_of_mem e hx)),
      if_neg (h e (List.mem_cons_self e l))]
    rfl

theorem mergeLookup_ts {E B : List Entry} {f : Option String} {k : String} {r : Entry}
    (h : mergeLookup E B f k = some r) : r.timestamp = k := by
  unfold mergeLookup at h
  cases hv : lastWithTS (B.filter fun e => passesFloor f e.timestamp) k with
  | some x =>
    rw [hv] at h
    have hx : x = r := Option.some.inj h
    subst hx
    exact (lastWithTS_mem hv).2
  | none =>
    rw [hv] at h
    exact (lastWithTS_mem (show lastWithTS E k = some r from h)).2

theorem merge_data_sorted (E B : List Entry) (f : Option String) :
    SortedByTS Entry.timestamp (merge_data E B f) :=
  sortByKey_sorted Entry.timestamp ((mergeMap E B f).map Prod.snd)

theorem merge_data_strict (E B : List Entry) (f : Option String) :
    StrictByTS Entry.timestamp (merge_data E B f) := by
  apply strict_of_sorted_nodup (merge_data_sorted E B f)
  have hperm : ((merge_data E B f).map Entry.timestamp).Perm
      (((mergeMap E B f).map Prod.snd).map Entry.timestamp) :=
    (sortByKey_perm Entry.timestamp ((mergeMap E B f).map Prod.snd)).map _
  have heq : ((mergeMap E B f).map Prod.snd).map Entry.timestamp
      = (mergeMap E B f).map Prod.fst := by
    rw [List.map_map]
    apply List.map_congr_left
    intro p hp
    exact (mergeMap_inv E B f).2 p hp
  rw [heq] at hperm
  exact hperm.nodup_iff.mpr (mergeMap_inv E B f).1

theorem mem_merge_data_iff (E B : List Entry) (f : Option String) (r : Entry) :
    r ∈ merge_data E B f ↔ mergeLookup E B f r.timestamp = some r := by
  constructor
  · intro h
    have h1 : r ∈ (mergeMap E B f).map Prod.snd :=
      (sortByKey_perm Entry.timestamp ((mergeMap E B f).map Prod.snd)).mem_iff.mp h
    rcases List.mem_map.mp h1 with ⟨p, hp, rfl⟩
    rw [← lookupA_mergeMap]
    have hk : p.2.timestamp = p.1 := (mergeMap_inv E B f).2 p hp
    rw [hk]
    exact lookupA_eq_some_of_mem (mergeMap_inv E B f).1 hp
  · intro h
    rw [← lookupA_mergeMap] at h
    rcases lookupA_mem h with ⟨p, hp, h2, _⟩
    exact (sortByKey_perm Entry.timestamp ((mergeMap E B f).map Prod.snd)).mem_iff.mpr
      (List.mem_map.mpr ⟨p, hp, h2⟩)

theorem mergeLookup_merge (E B : List Entry) (f : Option String) (k : String) :
    mergeLookup (merge_data E B f) B f k = mergeLookup E B f k := by
  have hmid : lastWithTS (merge_data E B f) k = mergeLookup E B f k := by
    cases hv : mergeLookup E B f k with
    | some r =>
      have hts : r.timestamp = k := mergeLookup_ts hv
      have hr : r ∈ merge_data E B f := by
        rw [mem_merge_data_iff, hts]
        exact hv
      have hlast := lastWithTS_eq_some_of_mem
        (strictByTS_nodup_ts (merge_data_strict E B f)) hr
      rw [hts] at hlast
      exact hlast
    | none =>
      apply lastWithTS_eq_none
      intro e he hk
      have hm := (mem_merge_data_iff E B f e).mp he
      rw [hk, hv] at hm
      exact Option.noConfusion hm
  unfold mergeLookup
  rw [hmid]
  unfold mergeLookup
  cases lastWithTS (B.filter fun e => passesFloor f e.timestamp) k <;> rfl

theorem floor_excludes {B : List Entry} {f k : String}
    (h : pyStrLt (k.take 10) f = true) :
    lastWithTS (B.filter fun e => passesFloor (some f) e.timestamp) k = none := by
  apply lastWithTS_eq_none
  intro e he hk
  rcases List.mem_filter.mp he with ⟨_, hpass⟩
  rw [hk] at hpass
  have hp : passesFloor (some f) k = false := by
    show (!pyStrLt (k.take 10) f) = false
    rw [h]
    rfl
  rw [hp] at hpass
  exact Bool.noConfusion hpass

theorem filter_nodup_ts {B : List Entry} (hB : (B.map Entry.timestamp).Nodup)
    (c : Entry → Bool) : ((B.filter c).map Entry.timestamp).Nodup :=
  ((List.filter_sublist B).map Entry.timestamp).nodup hB

/-- C2. Merge idempotence: merging the same incoming batch a second time
changes nothing, for any existing series, batch and optional date floor. -/
theorem merge_idempotent (E B : List Entry) (f : Option String) :
    merge_data (merge_data E B f) B f = merge_data E B f := by
  apply eq_of_strict_of_mem_iff (merge_data_strict _ _ _) (merge_data_strict _ _ _)
  intro r
  rw [mem_merge_data_iff, mem_merge_data_iff, mergeLookup_merge]

/-- C9. Merging an empty incoming batch is the identity on any existing
series that is sorted ascending with unique timestamps, for any floor. -/
theorem merge_empty_identity (E : List Entry) (f : Option String)
    (hs : SortedByTS Entry.timestamp E) (hn : (E.map Entry.timestamp).Nodup) :
    merge_data E [] f = E := by
  apply eq_of_strict_of_mem_iff (merge_data_strict _ _ _) (strict_of_sorted_nodup hs hn)
  intro r
  rw [mem_merge_data_iff]
  unfold mergeLookup
  rw [List.filter_nil]
  show oor none (lastWithTS E r.timestamp) = some r ↔ r ∈ E
  constructor
  · intro h
    exact (lastWithTS_mem (show lastWithTS E r.timestamp = some r from h)).1
  · intro h
    exact lastWithTS_eq_some_of_mem hn h

/-- Witness for merge_empty_identity at a concrete sorted store. -/
theorem merge_empty_identity_witness :
    merge_data [⟨"2024-01-01T00:00:00Z", 5, 3⟩] [] (some "2024-06-01")
      = [⟨"2024-01-01T00:00:00Z", 5, 3⟩] :=
  merge_empty_identity _ _ (List.pairwise_singleton _ _) (by decide)

/-- C3. Date-floor exclusion: an incoming record whose day portion is
below the floor ends in the merged result only when its timestamp was
already present in the existing series, and the floor never purges
existing entries below it (shown for stores satisfying the unique
timestamp invariant). -/
theorem date_floor_exclusion (E B : List Entry) (f : String) :
    (∀ r ∈ B, pyStrLt (r.timestamp.take 10) f = true →
      r ∈ merge_data E B (some f) → ∃ e ∈ E, e.timestamp = r.timestamp) ∧
    ((E.map Entry.timestamp).Nodup → ∀ e ∈ E, pyStrLt (e.timestamp.take 10) f = true →
      e ∈ merge_data E B (some f)) := by
  constructor
  · intro r hrB hlow hrM
    have hm := (mem_merge_data_iff E B (some f) r).mp hrM
    unfold mergeLookup at hm
    rw [floor_excludes hlow] at hm
    have hE : lastWithTS E r.timestamp = some r := hm
    exact ⟨r, (lastWithTS_mem hE).1, rfl⟩
  · intro hE e heE hlow
    rw [mem_merge_data_iff]
    unfold mergeLookup
    rw [floor_excludes hlow, lastWithTS_eq_some_of_mem hE heE]
    rfl

/-- Witness for date_floor_exclusion: an existing below-floor entry
survives an empty fetch under the floor. -/
theorem date_floor_exclusion_witness :
    (⟨"2024-05-31T00:00:00Z", 1, 1⟩ : Entry) ∈
      merge_data [⟨"2024-05-31T00:00:00Z", 1, 1⟩] [] (some "2024-06-01") :=
  (date_floor_exclusion _ _ _).2 (by decide) _ (by decide) (by decide)

/-- C1 counterexample: with floor 2024-06-01, existing and incoming both
hold timestamp 2024-05-31T00:00:00Z, yet the merged result keeps the
existing record, not the incoming one, contradicting the unconditional
"present in both E and B gives B's record" reading of the claim. -/
theorem merge_union_counterexample :
    merge_data [⟨"2024-05-31T00:00:00Z", 1, 1⟩] [⟨"2024-05-31T00:00:00Z", 2, 2⟩]
      (some "2024-06-01") = [⟨"2024-05-31T00:00:00Z", 1, 1⟩] := by decide

/-- C1 amended. Union-with-override for series with unique timestamps:
timestamps only in E keep E's record; an incoming record passing the
floor ends in the result (projected to timestamp/count/uniques, which is
the whole record here); for a timestamp in both E and B whose incoming
record fails the floor, E's record survives unchanged. -/
theorem merge_union_with_override (E B : List Entry) (f : Option String)
    (hE : (E.map Entry.timestamp).Nodup) (hB : (B.map Entry.timestamp).Nodup) :
    (∀ e ∈ E, e.timestamp ∉ B.map Entry.timestamp → e ∈ merge_data E B f) ∧
    (∀ b ∈ B, passesFloor f b.timestamp = true → b ∈ merge_data E B f) ∧
    (∀ e ∈ E, e.timestamp ∈ B.map Entry.timestamp → passesFloor f e.timestamp = false →
      e ∈ merge_data E B f) := by
  refine ⟨?_, ?_, ?_⟩
  · intro e heE hnotB
    rw [mem_merge_data_iff]
    unfold mergeLookup
    have hBnone : lastWithTS (B.filter fun x => passesFloor f x.timestamp) e.timestamp
        = none := by
      apply lastWithTS_eq_none
      intro x hx hxts
      exact hnotB (hxts ▸ List.mem_map.mpr ⟨x, (List.mem_filter.mp hx).1, rfl⟩)
    rw [hBnone, lastWithTS_eq_some_of_mem hE heE]
    rfl
  · intro b hbB hpass
    rw [mem_merge_data_iff]
    unfold mergeLookup
    have hBsome : lastWithTS (B.filter fun x => passesFloor f x.timestamp) b.timestamp
        = some b :=
      lastWithTS_eq_some_of_mem (filter_nodup_ts hB _)
        (List.mem_filter.mpr ⟨hbB, hpass⟩)
    rw [hBsome]
    rfl
  · intro e heE _ hfail
    rw [mem_merge_data_iff]
    unfold mergeLookup
    have hBnone : lastWithTS (B.filter fun x => passesFloor f x.timestamp) e.timestamp
        = none := by
      apply lastWithTS_eq_none
      intro x hx hxts
      have hpass := (List.mem_filter.mp hx).2
      rw [hxts, hfail] at hpass
      exact Bool.noConfusion hpass
    rw [hBnone, lastWithTS_eq_some_of_mem hE heE]
    rfl

/-- Witness for merge_union_with_override at a concrete pair of series. -/
theorem merge_union_with_override_witness :
    (⟨"2024-01-01T00:00:00Z", 5, 3⟩ : Entry) ∈
      merge_data [⟨"2024-01-01T00:00:00Z", 5, 3⟩] [⟨"2024-01-02T00:00:00Z", 2, 2⟩] none :=
  (merge_union_with_override _ _ none (by decide) (by decide)).1 _ (by decide) (by decide)

theorem perm_strict_sorted_eq {ts : α → String} {l1 l2 : List α}
    (hp : l1.Perm l2) (hs : SortedByTS ts l1) (h2 : StrictByTS ts l2) : l1 = l2 := by
  have hn : (l1.map ts).Nodup := ((hp.map ts).nodup_iff).mpr (strictByTS_nodup_ts h2)
  exact eq_of_strict_of_mem_iff (strict_of_sorted_nodup hs hn) h2 (fun x => hp.mem_iff)

theorem dailyReplace_perm (ts : α → String) (series : List α) (today : String)
    (entry : α) :
    (dailyReplace ts series today entry).Perm
      ((series.filter (fun x => ts x != today)) ++ [entry]) :=
  sortByKey_perm ts _

theorem dailyReplace_filter_today {ts : α → String} (series : List α) (today : String)
    (entry : α) (hts : ts entry = today) :
    (dailyReplace ts series today entry).filter (fun x => ts x == today) = [entry] := by
  apply List.perm_singleton.mp
  have hp := (dailyReplace_perm ts series today entry).filter (fun x => ts x == today)
  rw [List.filter_append, List.filter_filter] at hp
  have h1 : series.filter (fun a => (ts a == today) && (ts a != today)) = [] := by
    rw [List.filter_eq_nil_iff]
    intro a _
    show ¬ ((ts a == today) && !(ts a == today)) = true
    rw [Bool.and_not_self]
    exact fun hh => Bool.noConfusion hh
  have h2 : List.filter (fun x => ts x == today) [entry] = [entry] := by
    rw [List.filter_cons_of_pos (by rw [hts]; exact beq_self_eq_true today),
      List.filter_nil]
  rw [h1, h2, List.nil_append] at hp
  exact hp

theorem dailyReplace_filter_other {ts : α → String} (series : List α) (today : String)
    (entry : α) (hts : ts entry = today) (hS : StrictByTS ts series) :
    (dailyReplace ts series today entry).filter (fun x => ts x != today)
      = series.filter (fun x => ts x != today) := by
  apply perm_strict_sorted_eq
  · have hp := (dailyReplace_perm ts series today entry).filter (fun x => ts x != today)
    rw [List.filter_append, List.filter_filter] at hp
    have h1 : series.filter (fun a => (ts a != today) && (ts a != today))
        = series.filter (fun x => ts x != today) := by
      apply List.filter_congr
      intro a _
      exact Bool.and_self _
    have h2 : List.filter (fun x => ts x != today) [entry] = [] := by
      have hfalse : (ts entry != today) = false := by
        rw [hts]
        show (!(today == today)) = false
        rw [beq_self_eq_true]
        rfl
      rw [List.filter_cons_of_neg (by simp [hfalse]), List.filter_nil]
    rw [h1, h2, List.append_nil] at hp
    exact hp
  · exact (sortByKey_sorted ts _).filter _
  · exact hS.filter _

theorem dailyReplace_strict {ts : α → String} (series : List α) (today : String)
    (entry : α) (hts : ts entry = today) (hn : (series.map ts).Nodup) :
    StrictByTS ts (dailyReplace ts series today entry) := by
  apply strict_of_sorted_nodup (sortByKey_sorted ts _)
  have hp : ((dailyReplace ts series today entry).map ts).Perm
      (((series.filter (fun x => ts x != today)) ++ [entry]).map ts) :=
    (dailyReplace_perm ts series today entry).map ts
  apply hp.nodup_iff.mpr
  rw [List.map_append, List.nodup_append]
  refine ⟨((List.filter_sublist series).map ts).nodup hn, List.nodup_singleton _, ?_⟩
  intro x hx hx'
  rcases List.mem_map.mp hx with ⟨a, ha, rfl⟩
  have hne := (List.mem_filter.mp ha).2
  rcases List.mem_cons.mp hx' with he | he
  · rw [he, hts] at hne
    show False
    have hself : (today != today) = false := by
      show (!(today == today)) = false
      rw [beq_self_eq_true]
      rfl
    rw [hself] at hne
    exact Bool.noConfusion hne
  · exact absurd he (List.not_mem_nil _)

/-- C4. Snapshot daily replace: after recording values v1 then v2 for the
same day T, the series holds exactly one entry for T, with count v2, and
its entries for other timestamps are exactly those of the original
series (stated for series satisfying the stored invariant). -/
theorem snapshot_daily_replace (S : List Snap) (T : String) (v1 v2 : Int)
    (hS : StrictByTS Snap.timestamp S) :
    ((recordSnapshot (recordSnapshot S T v1) T v2).filter
        (fun x => x.timestamp == T) = [⟨T, v2⟩]) ∧
    ((recordSnapshot (recordSnapshot S T v1) T v2).filter
        (fun x => x.timestamp != T) = S.filter (fun x => x.timestamp != T)) := by
  unfold recordSnapshot
  constructor
  · exact dailyReplace_filter_today (dailyReplace Snap.timestamp S T ⟨T, v1⟩) T
      (⟨T, v2⟩ : Snap) rfl
  · have h1 : StrictByTS Snap.timestamp (dailyReplace Snap.timestamp S T ⟨T, v1⟩) :=
      dailyReplace_strict S T ⟨T, v1⟩ rfl (strictByTS_nodup_ts hS)
    rw [dailyReplace_filter_other (dailyReplace Snap.timestamp S T ⟨T, v1⟩) T ⟨T, v2⟩
      rfl h1, dailyReplace_filter_other S T ⟨T, v1⟩ rfl hS]

/-- Witness for snapshot_daily_replace: recording 10 then 15 on one day
leaves one entry for that day, with count 15. -/
theorem snapshot_daily_replace_witness :
    (recordSnapshot (recordSnapshot [] "2024-01-01T00:00:00Z" 10)
        "2024-01-01T00:00:00Z" 15).filter
      (fun x => x.timestamp == "2024-01-01T00:00:00Z")
      = [⟨"2024-01-01T00:00:00Z", 15⟩] :=
  (snapshot_daily_replace [] "2024-01-01T00:00:00Z" 10 15 List.Pairwise.nil).1

/-- C5. Retention window: pruning keeps exactly the entries with
timestamp lexicographically at or above the cutoff; at cutoff day
2024-01-01 an entry of 2023-12-31 is removed and one of 2024-01-01 is
retained; after an update, every entry of all five series is at or above
the cutoff. -/
theorem retention_window :
    (∀ (cutoff : String) (l : List Entry) (x : Entry),
      x ∈ prune Entry.timestamp cutoff l ↔ x ∈ l ∧ pyStrLe cutoff x.timestamp = true) ∧
    (prune Entry.timestamp "2024-01-01T00:00:00Z"
        [⟨"2023-12-31T00:00:00Z", 1, 1⟩, ⟨"2024-01-01T00:00:00Z", 2, 2⟩]
      = [⟨"2024-01-01T00:00:00Z", 2, 2⟩]) ∧
    (∀ (db : Store) (v c : List Entry) (repo : RepoData) (rf : RefData)
      (today cutoff now : String) (floor : Option String),
      (∀ x ∈ (runUpdate db v c repo rf today cutoff now floor).views,
        pyStrLe cutoff x.timestamp = true) ∧
      (∀ x ∈ (runUpdate db v c repo rf today cutoff now floor).clones,
        pyStrLe cutoff x.timestamp = true) ∧
      (∀ x ∈ (runUpdate db v c repo rf today cutoff now floor).stars.getD [],
        pyStrLe cutoff x.timestamp = true) ∧
      (∀ x ∈ (runUpdate db v c repo rf today cutoff now floor).forks.getD [],
        pyStrLe cutoff x.timestamp = true) ∧
      (∀ x ∈ (runUpdate db v c repo rf today cutoff now floor).referrers.getD [],
        pyStrLe cutoff x.timestamp = true)) := by
  refine ⟨?_, by decide, ?_⟩
  · intro cutoff l x
    exact List.mem_filter
  · intro db v c repo rf today cutoff now floor
    refine ⟨?_, ?_, ?_, ?_, ?_⟩ <;> intro x hx <;> exact (List.mem_filter.mp hx).2

/-- Witness for retention_window applied at the concrete boundary pair. -/
theorem retention_window_witness :
    (⟨"2024-01-01T00:00:00Z", 2, 2⟩ : Entry) ∈
      prune Entry.timestamp "2024-01-01T00:00:00Z"
        [⟨"2023-12-31T00:00:00Z", 1, 1⟩, ⟨"2024-01-01T00:00:00Z", 2, 2⟩] :=
  (retention_window.1 _ _ _).mpr ⟨by decide, by decide⟩

/-- C8 counterexample: a stored stars series with a duplicated timestamp
(an input the claim explicitly allows) still has a duplicated timestamp
after a successful run, because the snapshot update only deletes entries
matching today and never deduplicates others. -/
theorem series_invariant_counterexample :
    ¬ ((((runUpdate
        { views := [], clones := [],
          stars := some [⟨"2024-01-02T00:00:00Z", 5⟩, ⟨"2024-01-02T00:00:00Z", 6⟩],
          forks := none, referrers := none, updated_at := none }
        [] [] ⟨none, none⟩ [] "2024-01-03T00:00:00Z" "2024-01-01T00:00:00Z" "now"
        none).stars.getD []).map Snap.timestamp).Nodup) := by decide

/-- C8 amended. After a successful run every series is sorted strictly
ascending by timestamp (sorted with unique timestamps): unconditionally
for views and clones, whose merge deduplicates through the dict, and for
stars, forks and referrers provided the stored series already had unique
timestamps, since the snapshot update does not deduplicate entries of
other days. -/
theorem series_invariant (db : Store) (v c : List Entry) (repo : RepoData)
    (rf : RefData) (today cutoff now : String) (floor : Option String)
    (hstars : ((db.stars.getD []).map Snap.timestamp).Nodup)
    (hforks : ((db.forks.getD []).map Snap.timestamp).Nodup)
    (hrefs : ((db.referrers.getD []).map RefSnap.timestamp).Nodup) :
    StrictByTS Entry.timestamp (runUpdate db v c repo rf today cutoff now floor).views ∧
    StrictByTS Entry.timestamp (runUpdate db v c repo rf today cutoff now floor).clones ∧
    StrictByTS Snap.timestamp
      ((runUpdate db v c repo rf today cutoff now floor).stars.getD []) ∧
    StrictByTS Snap.timestamp
      ((runUpdate db v c repo rf today cutoff now floor).forks.getD []) ∧
    StrictByTS RefSnap.timestamp
      ((runUpdate db v c repo rf today cutoff now floor).referrers.getD []) := by
  refine ⟨(merge_data_strict _ _ _).filter _, (merge_data_strict _ _ _).filter _,
    ?_, ?_, ?_⟩
  · exact (dailyReplace_strict (db.stars.getD []) today
      ⟨today, repo.stargazers_count.getD 0⟩ rfl hstars).filter _
  · exact (dailyReplace_strict (db.forks.getD []) today
      ⟨today, repo.forks_count.getD 0⟩ rfl hforks).filter _
  · exact (dailyReplace_strict (db.referrers.getD []) today ⟨today, rf⟩ rfl hrefs).filter _

/-- Witness for series_invariant on a default store. -/
theorem series_invariant_witness :
    StrictByTS Entry.timestamp
      (runUpdate defaultStore [] [] ⟨none, none⟩ [] "2024-01-02T00:00:00Z"
        "2024-01-01T00:00:00Z" "now" none).views :=
  (series_invariant defaultStore [] [] ⟨none, none⟩ [] "2024-01-02T00:00:00Z"
    "2024-01-01T00:00:00Z" "now" none (by decide) (by decide) (by decide)).1

/-- C10. A repository metadata object missing stargazers_count or
forks_count yields a snapshot of count 0 for the corresponding series
(the run does not fail and the field is not omitted), provided today is
within the retention window. -/
theorem missing_counts_default_zero (db : Store) (v c : List Entry) (repo : RepoData)
    (rf : RefData) (today cutoff now : String) (floor : Option String)
    (hcut : pyStrLe cutoff today = true) :
    (repo.stargazers_count = none →
      ((runUpdate db v c repo rf today cutoff now floor).stars.getD []).filter
        (fun x => x.timestamp == today) = [⟨today, 0⟩]) ∧
    (repo.forks_count = none →
      ((runUpdate db v c repo rf today cutoff now floor).forks.getD []).filter
        (fun x => x.timestamp == today) = [⟨today, 0⟩]) := by
  constructor
  · intro hnone
    show (prune Snap.timestamp cutoff (recordSnapshot (db.stars.getD []) today
      (repo.stargazers_count.getD 0))).filter (fun x => x.timestamp == today) = _
    rw [hnone]
    unfold prune
    rw [List.filter_comm]
    unfold recordSnapshot
    rw [dailyReplace_filter_today (db.stars.getD []) today
      (⟨today, Option.getD none 0⟩ : Snap) rfl]
    rw [List.filter_cons_of_pos (p := fun (x : Snap) => pyStrLe cutoff x.timestamp) hcut,
      List.filter_nil]
    rfl
  · intro hnone
    show (prune Snap.timestamp cutoff (recordSnapshot (db.forks.getD []) today
      (repo.forks_count.getD 0))).filter (fun x => x.timestamp == today) = _
    rw [hnone]
    unfold prune
    rw [List.filter_comm]
    unfold recordSnapshot
    rw [dailyReplace_filter_today (db.forks.getD []) today
      (⟨today, Option.getD none 0⟩ : Snap) rfl]
    rw [List.filter_cons_of_pos (p := fun (x : Snap) => pyStrLe cutoff x.timestamp) hcut,
      List.filter_nil]
    rfl

/-- Witness for missing_counts_default_zero on a default store. -/
theorem missing_counts_default_zero_witness :
    ((runUpdate defaultStore [] [] ⟨none, none⟩ [] "2024-01-02T00:00:00Z"
        "2024-01-01T00:00:00Z" "now" none).stars.getD []).filter
      (fun x => x.timestamp == "2024-01-02T00:00:00Z")
      = [⟨"2024-01-02T00:00:00Z", 0⟩] :=
  (missing_counts_default_zero defaultStore [] [] ⟨none, none⟩ []
    "2024-01-02T00:00:00Z" "2024-01-01T00:00:00Z" "now" none (by decide)).1 rfl

/-- C6 counterexample: a run in which every fetch succeeds and the dump
fails immediately after the file was opened for writing exits with
status 1 but leaves the file truncated to the empty string, not
byte-identical to its pre-run contents. -/
theorem failure_atomicity_counterexample :
    runMain (some "previous") (fun _ => defaultStore) (Except.ok []) (Except.ok [])
      (Except.ok ⟨none, none⟩) (Except.ok []) "2024-01-02T00:00:00Z"
      "2024-01-01T00:00:00Z" "now" none (fun _ => "serialized") (some 0)
      = (some "", 1) ∧ (some "" : Option String) ≠ some "previous" := by decide

/-- C6 amended. Any run failing at a fetch or parse step exits with
status 1 and leaves the file byte-identical to its pre-run state (in
particular a referrer-fetch failure after the other fetches succeeded
causes no write); a run whose write step fails also exits with status 1,
but the file may be left truncated, since writing opens the file in
truncating mode before the dump. -/
theorem failure_atomicity (fileBefore : Option String) (load : Option String → Store)
    (fv fc : Except Unit (List Entry)) (frepo : Except Unit RepoData)
    (fref : Except Unit RefData) (today cutoff now : String) (floor : Option String)
    (ser : Store → String) (writeFail : Option Nat) :
    ((fv = .error () ∨ fc = .error () ∨ frepo = .error () ∨ fref = .error ()) →
      runMain fileBefore load fv fc frepo fref today cutoff now floor ser writeFail
        = (fileBefore, 1)) ∧
    (writeFail ≠ none →
      (runMain fileBefore load fv fc frepo fref today cutoff now floor ser
        writeFail).2 = 1) := by
  constructor
  · intro h
    match fv, fc, frepo, fref with
    | .error e, _, _, _ => rfl
    | .ok v, .error e, _, _ => rfl
    | .ok v, .ok c, .error e, _ => rfl
    | .ok v, .ok c, .ok r, .error e => rfl
    | .ok v, .ok c, .ok r, .ok rf =>
      rcases h with h | h | h | h <;> exact Except.noConfusion h
  · intro h
    match hw : writeFail with
    | none => exact absurd rfl h
    | some k =>
      match fv, fc, frepo, fref with
      | .error e, _, _, _ => rfl
      | .ok v, .error e, _, _ => rfl
      | .ok v, .ok c, .error e, _ => rfl
      | .ok v, .ok c, .ok r, .error e => rfl
      | .ok v, .ok c, .ok r, .ok rf => rfl

/-- Witness for failure_atomicity: a failing referrer fetch leaves the
file unchanged and exits 1. -/
theorem failure_atomicity_witness :
    runMain (some "previous") (fun _ => defaultStore) (Except.ok []) (Except.ok [])
      (Except.ok ⟨none, none⟩) (Except.error ()) "2024-01-02T00:00:00Z"
      "2024-01-01T00:00:00Z" "now" none (fun _ => "serialized") none
      = (some "previous", 1) :=
  (failure_atomicity (some "previous") (fun _ => defaultStore) (Except.ok [])
    (Except.ok []) (Except.ok ⟨none, none⟩) (Except.error ()) "2024-01-02T00:00:00Z"
    "2024-01-01T00:00:00Z" "now" none (fun _ => "serialized") none).1
    (Or.inr (Or.inr (Or.inr rfl)))

/-- C7 counterexample: a file holding valid JSON of the wrong structure
(a bare array) is not replaced by the default store by the loader; the
loader returns the array unchanged. -/
theorem load_tolerance_counterexample :
    loadDb (some (Except.ok (Json.arr []))) ≠ defaultDbJson := by
  intro h
  exact Json.noConfusion h

/-- C7 amended. The loader never raises: a missing file or contents that
are not valid JSON yield the default store with empty views and clones,
and the run continues normally from that default (a run from the default
store with successful fetches and write exits with status 0); however,
contents that parse as JSON are returned as-is whatever their structure,
so structurally invalid JSON is not replaced by the default. -/
theorem load_tolerance (j : Json) (fileBefore : Option String)
    (v c : List Entry) (repo : RepoData) (rf : RefData)
    (today cutoff now : String) (floor : Option String) (ser : Store → String) :
    loadDb none = defaultDbJson ∧
    loadDb (some (Except.error ())) = defaultDbJson ∧
    loadDb (some (Except.ok j)) = j ∧
    (runMain fileBefore (fun _ => defaultStore) (.ok v) (.ok c) (.ok repo) (.ok rf)
      today cutoff now floor ser none).2 = 0 :=
  ⟨rfl, rfl, rfl, rfl⟩

end GitTracker
